import Mathlib

/-!
Shallow embedding of the FileConverter repository (src/conversion.py and
src/app.py) together with proofs about the embedded operations.

The embedding models:
* Python string primitives (`str.strip`, `str.split`, `int(...)`) restricted
  to ASCII, as used by `_parse_page_ranges`;
* `_parse_page_ranges` itself;
* the temporary-workspace helper `_convert_with_temp_file` over an explicit
  filesystem state;
* the `docx_to_pdf` subprocess handling and its error classification;
* the PIL-backed handlers `image_convert` and `image_to_pdf` over an abstract
  image model (mode string + frame count);
* the archive-producing handlers `split_pdf` and `pdf_to_image` (entry names
  and archive file names).
-/

namespace FileConverter

/-! ## Python string primitives -/

/-- ASCII whitespace as recognised by Python's `str.strip` (restricted to the
ASCII range; the source never feeds non-ASCII whitespace to the parser). -/
def isPyWs (c : Char) : Bool :=
  c == ' ' || c == '\t' || c == '\n' || c == '\r' || c == '\x0b' || c == '\x0c'

/-- Model of Python `str.strip()`: drop leading and trailing whitespace. -/
def stripChars (l : List Char) : List Char :=
  ((l.dropWhile isPyWs).reverse.dropWhile isPyWs).reverse

/-- Model of Python `str.split(sep)` for a one-character separator: split on
every occurrence, keeping empty pieces (`"".split(',') == ['']`). -/
def pySplit (sep : Char) : List Char → List (List Char)
  | [] => [[]]
  | c :: rest =>
    match pySplit sep rest with
    | [] => [[]]
    | h :: t => if c = sep then [] :: h :: t else (c :: h) :: t

/-- Model of Python's `in` test for a single character in a string. -/
def containsChar (c : Char) : List Char → Bool
  | [] => false
  | d :: rest => d == c || containsChar c rest

/-- Digit/underscore tail of Python `int` parsing: consume decimal digits,
allowing single underscores between digits (Python 3 numeral syntax),
accumulating the value.  Fails on any other character. -/
def digitsCore (acc : Nat) : List Char → Option Nat
  | [] => some acc
  | c :: rest =>
    if c.isDigit then digitsCore (10 * acc + (c.toNat - 48)) rest
    else if c = '_' then
      match rest with
      | [] => none
      | d :: rest2 =>
        if d.isDigit then digitsCore (10 * acc + (d.toNat - 48)) rest2 else none
    else none

/-- Parse a non-empty digit sequence (first character must be a digit). -/
def parseDigitsStart : List Char → Option Nat
  | [] => none
  | c :: rest => if c.isDigit then digitsCore (c.toNat - 48) rest else none

/-- Model of Python `int(s)` on ASCII input: strip whitespace, optional sign,
then decimal digits with Python's underscore rules. -/
def pyIntCore (l : List Char) : Option Int :=
  match stripChars l with
  | [] => none
  | c :: rest =>
    if c = '+' then (parseDigitsStart rest).map Int.ofNat
    else if c = '-' then (parseDigitsStart rest).map (fun n => -(n : Int))
    else (parseDigitsStart (c :: rest)).map Int.ofNat

/-! ## Decimal rendering (Python `str(n)` / f-string formatting of a `Nat`) -/

/-- One decimal digit character. -/
def digitChar (m : Nat) : Char :=
  match m with
  | 0 => '0' | 1 => '1' | 2 => '2' | 3 => '3' | 4 => '4'
  | 5 => '5' | 6 => '6' | 7 => '7' | 8 => '8' | _ => '9'

/-- Fuel-driven digit extraction, least significant digit first.  The fuel is
only there to make the recursion structural; `natDigitsRev` instantiates it
with a sufficient amount. -/
def natDigitsRevAux (n : Nat) : Nat → List Char
  | 0 => []
  | fuel + 1 =>
    if n = 0 then [] else digitChar (n % 10) :: natDigitsRevAux (n / 10) fuel

/-- Decimal digits of `n`, least significant first (`[]` for `0`). -/
def natDigitsRev (n : Nat) : List Char := natDigitsRevAux n n

/-- Decimal rendering of a natural number, as a character list. -/
def natStrL (n : Nat) : List Char :=
  if n = 0 then ['0'] else (natDigitsRev n).reverse

/-- Decimal rendering of a natural number, as a string. -/
def natStr (n : Nat) : String := ⟨natStrL n⟩

/-! ## `_parse_page_ranges` (src/conversion.py, lines 91-125) -/

/-- Model of Python `sorted(list(set(xs)))`: insertion sort that also drops
duplicates. -/
def insertDedup (n : Nat) : List Nat → List Nat
  | [] => [n]
  | m :: rest =>
    if n < m then n :: m :: rest
    else if n = m then m :: rest
    else m :: insertDedup n rest

/-- Sorted, duplicate-free version of a list (Python `sorted(list(set(xs)))`). -/
def sortDedup (l : List Nat) : List Nat := l.foldr insertDedup []

/-- One comma-separated clause of `_parse_page_ranges`: either `N-M` (when the
clause contains a dash) or a single `N`, with Python `int` parsing of the
pieces and the source's bound checks.  Returns the raw (pre-dedup) zero-based
page list, exactly as the source builds `page_list`. -/
def parseClause (part : List Char) (maxPages : Nat) : Except String (List Nat) :=
  if containsChar '-' part then
    match pySplit '-' part with
    | [a, b] =>
      match pyIntCore a, pyIntCore b with
      | some s, some e =>
        if 0 < s ∧ s ≤ e ∧ e ≤ (maxPages : Int) then
          Except.ok (List.range' (s.toNat - 1) (e.toNat + 1 - s.toNat))
        else Except.error "Invalid page range. Pages must be between 1 and max_pages."
      | _, _ => Except.error "Invalid range format. Use numbers like 1-4."
    | _ => Except.error "Invalid range format. Use numbers like 1-4."
  else
    match pyIntCore part with
    | some n =>
      if 0 < n ∧ n ≤ (maxPages : Int) then Except.ok [n.toNat - 1]
      else Except.error "Invalid page number. Page must be between 1 and max_pages."
    | none => Except.error "Invalid page number format. Use numbers like 5."

/-- The loop body of `_parse_page_ranges`: parse each clause in order, stop at
the first error, append `sorted(list(set(page_list)))` for each non-empty
`page_list`. -/
def collectGroups (maxPages : Nat) : List (List Char) → Except String (List (List Nat))
  | [] => Except.ok []
  | p :: ps =>
    match parseClause p maxPages with
    | Except.error e => Except.error e
    | Except.ok g =>
      match collectGroups maxPages ps with
      | Except.error e => Except.error e
      | Except.ok gs => Except.ok (if g.isEmpty then gs else sortDedup g :: gs)

/-- The stripped, non-empty comma-separated pieces of the range string
(the source's `parts = [part.strip() for part in ranges_string.split(',')
if part.strip()]`). -/
def nonEmptyParts (s : String) : List (List Char) :=
  ((pySplit ',' s.data).map stripChars).filter (fun p => !p.isEmpty)

/-- Embedding of `_parse_page_ranges(ranges_string, max_pages)`. -/
def parsePageRanges (rangesString : String) (maxPages : Nat) :
    Except String (List (List Nat)) :=
  if (stripChars rangesString.data).isEmpty then
    Except.error "Page range cannot be empty."
  else
    match collectGroups maxPages (nonEmptyParts rangesString) with
    | Except.error e => Except.error e
    | Except.ok groups =>
      if groups.isEmpty then
        Except.error "No valid pages found in the provided range string."
      else Except.ok groups

deriving instance DecidableEq for Except

/-- Whether an `Except` value is an error. -/
def exceptIsError : Except String α → Bool
  | Except.error _ => true
  | Except.ok _ => false

example : parsePageRanges "1-3, 5, 7-9" 10 =
    Except.ok [[0, 1, 2], [4], [6, 7, 8]] := by decide

example : parsePageRanges "1,,3" 3 = Except.ok [[0], [2]] := by decide

example : exceptIsError (parsePageRanges "5-3" 10) = true := by decide

example : exceptIsError (parsePageRanges "" 4) = true := by decide

example : exceptIsError (parsePageRanges "," 4) = true := by decide

/-! ## Path helpers (`os.path` on POSIX, as used by the source) -/

/-- Split a path into the part up to and including the last `'/'` and the
final component (`os.path.basename` is the second component). -/
def splitLastSlash (l : List Char) : List Char × List Char :=
  let baseRev := l.reverse.takeWhile (fun c => !(c == '/'))
  (l.take (l.length - baseRev.length), baseRev.reverse)

/-- Model of `os.path.basename`. -/
def basenameStr (p : String) : String := ⟨(splitLastSlash p.data).2⟩

/-- Model of `os.path.splitext(p)[0]`: drop the final `.ext` of the last path
component, where leading dots of the component never start an extension
(`splitext(".bashrc") == (".bashrc", "")`). -/
def splitextRootL (l : List Char) : List Char :=
  let d := (splitLastSlash l).1
  let base := (splitLastSlash l).2
  let pre := base.takeWhile (fun c => c == '.')
  let rest := base.drop pre.length
  let extRevLen := (rest.reverse.takeWhile (fun c => !(c == '.'))).length
  if extRevLen < rest.length then
    d ++ pre ++ rest.take (rest.length - extRevLen - 1)
  else l

/-- Model of `os.path.splitext(p)[0]` on strings. -/
def splitextRoot (p : String) : String := ⟨splitextRootL p.data⟩

/-- Model of `os.path.join(dir, name)` for a directory with no trailing
slash, as produced by `tempfile.TemporaryDirectory`. -/
def pathJoin (dir name : String) : String := dir ++ "/" ++ name

/-- Does `p` start with the character list `pat`? -/
def listStartsWith : List Char → List Char → Bool
  | [], _ => true
  | _ :: _, [] => false
  | p :: ps, c :: cs => p == c && listStartsWith ps cs

/-- Is `path` strictly inside directory `dir` (i.e. has `dir ++ "/"` at its
start)? -/
def isUnder (dir path : String) : Bool :=
  listStartsWith (dir.data ++ ['/']) path.data

/-! ## Filesystem model and `_convert_with_temp_file`
(src/conversion.py, lines 13-29) -/

/-- File contents, as a byte list. -/
abbrev Bytes := List Nat

/-- A simple filesystem state: the set of directories and the set of files
(path to contents). -/
structure FS where
  dirs : List String
  files : List (String × Bytes)

/-- Create or overwrite a file. -/
def fsWrite (fs : FS) (p : String) (b : Bytes) : FS :=
  { fs with files := (p, b) :: fs.files.filter (fun q => !(q.1 == p)) }

/-- Read a file, `none` when the path does not exist (Python `open` raising
`FileNotFoundError`). -/
def fsRead (fs : FS) (p : String) : Option Bytes :=
  (fs.files.find? (fun q => q.1 == p)).map (fun q => q.2)

/-- Recursive removal of a temporary directory and everything inside it: the
teardown of `tempfile.TemporaryDirectory` on exit from the `with` block. -/
def cleanupDir (fs : FS) (d : String) : FS :=
  { dirs := fs.dirs.filter (fun x => !(x == d) && !(isUnder d x)),
    files := fs.files.filter (fun pb => !(isUnder d pb.1)) }

/-- Embedding of `_convert_with_temp_file(uploaded_file, conversion_logic)`.
The `with tempfile.TemporaryDirectory()` block creates `tempDir`, stages the
uploaded bytes at `tempDir/uploadName`, runs the conversion logic (which may
fail, modelled by `Except`, and may create/alter files, modelled by returning
a new filesystem), then reads the output path.  On *every* exit path - logic
error, unreadable output, or success - the `with` block's teardown
(`cleanupDir`) runs before the call returns. -/
def convertWithTempFile (fs : FS) (tempDir : String) (uploadName : String)
    (uploadContent : Bytes)
    (logic : FS → String → String → Except String (FS × String)) :
    FS × Except String (Bytes × String) :=
  let fs1 : FS := { dirs := tempDir :: fs.dirs, files := fs.files }
  let inputPath := pathJoin tempDir uploadName
  let fs2 := fsWrite fs1 inputPath uploadContent
  match logic fs2 inputPath tempDir with
  | Except.error e => (cleanupDir fs2 tempDir, Except.error e)
  | Except.ok (fs3, outputPath) =>
    match fsRead fs3 outputPath with
    | none => (cleanupDir fs3 tempDir, Except.error "output file not readable")
    | some data => (cleanupDir fs3 tempDir, Except.ok (data, basenameStr outputPath))

/-! ## Subprocess model and `docx_to_pdf` (src/conversion.py, lines 164-202) -/

/-- The arguments `docx_to_pdf` passes to `subprocess.run`. -/
structure SubprocessInvocation where
  argv : List String
  envOverride : Option (List (String × String))
  timeoutSecs : Option Nat
  check : Bool
  captureOutput : Bool
  textMode : Bool

/-- The exact `subprocess.run` call made by `docx_to_pdf`'s conversion logic:
note that no `env=` keyword is passed, so `envOverride` is `none` and the
child inherits the parent environment unchanged. -/
def sofficeInvocation (inputPath tempDir : String) : SubprocessInvocation :=
  { argv := ["soffice", "--headless", "--convert-to", "pdf:writer_pdf_Export",
             "--outdir", tempDir, inputPath],
    envOverride := none,
    timeoutSecs := some 120,
    check := true,
    captureOutput := true,
    textMode := true }

/-- The one environment mutation in the program: `app.py` line 6 runs
`os.environ.setdefault("XDG_RUNTIME_DIR", "/tmp/runtime-appuser")` once at
module import, globally for the whole process. -/
def appStartupEnvDefaults : List (String × String) :=
  [("XDG_RUNTIME_DIR", "/tmp/runtime-appuser")]

/-- Outcome of the external `soffice` process, as seen through
`subprocess.run(..., check=True, timeout=120)`: the executable may be missing
(`FileNotFoundError`), the run may exceed the timeout (`TimeoutExpired`), or
the process completes with an exit code and captured stdout/stderr
(`check=True` turns a non-zero exit code into `CalledProcessError`). -/
inductive RunOutcome where
  | notFound
  | timedOut
  | completed (exitCode : Nat) (stdout : String) (stderr : String)
deriving DecidableEq

/-- The distinct failures `docx_to_pdf` raises (each a distinct exception
with its own message in the source). -/
inductive DocxError where
  | toolNotFound
  | toolTimedOut
  | toolFailed (stderr : String)
  | outputMissing (path : String)
deriving DecidableEq

/-- The output path `docx_to_pdf` expects:
`os.path.join(temp_dir, os.path.splitext(os.path.basename(input_path))[0] + ".pdf")`. -/
def docxOutputPath (inputPath tempDir : String) : String :=
  pathJoin tempDir (splitextRoot (basenameStr inputPath) ++ ".pdf")

/-- Embedding of the `logic` closure inside `docx_to_pdf`: classify the
subprocess outcome, then check that the expected output PDF exists
(`outputExists` reflects `os.path.exists(output_path)` after the tool ran). -/
def docxConvertLogic (outcome : RunOutcome) (outputExists : Bool)
    (inputPath tempDir : String) : Except DocxError String :=
  match outcome with
  | RunOutcome.notFound => Except.error DocxError.toolNotFound
  | RunOutcome.timedOut => Except.error DocxError.toolTimedOut
  | RunOutcome.completed code _ stderr =>
    if code ≠ 0 then Except.error (DocxError.toolFailed stderr)
    else if outputExists then Except.ok (docxOutputPath inputPath tempDir)
    else Except.error (DocxError.outputMissing (docxOutputPath inputPath tempDir))

/-! ## PIL model, `image_convert` and `image_to_pdf`
(src/conversion.py, lines 44-54 and 72-89) -/

/-- Model of Python `str.lower()` (ASCII). -/
def pyLower (s : String) : String := ⟨s.data.map Char.toLower⟩

/-- Model of Python `str.upper()` (ASCII). -/
def pyUpper (s : String) : String := ⟨s.data.map Char.toUpper⟩

/-- Abstract PIL image: its colour mode (`"RGBA"`, `"RGB"`, `"LA"`, `"P"`,
...) and its number of frames (1 for still images, more for animations). -/
structure PILImage where
  mode : String
  frames : Nat
deriving DecidableEq

/-- A call to `Image.save`: which image object is saved, the `format=`
argument, whether `save_all=True` was passed, and how many extra images were
passed via `append_images`. -/
structure SaveCall where
  imageMode : String
  imageFrames : Nat
  format : String
  saveAll : Bool
  appended : Nat
deriving DecidableEq

/-- PIL save semantics: without `save_all`, only the current (first) frame of
the image is encoded; with `save_all`, the first frame plus every
`append_images` entry is encoded. -/
def framesWritten (c : SaveCall) : Nat :=
  if c.saveAll then min c.imageFrames 1 + c.appended else min c.imageFrames 1

/-- Embedding of `image_convert(uploaded_file, output_format)`: flatten to RGB
only when the target is jpg/jpeg *and* the source mode is exactly `"RGBA"`
(`img.convert('RGB')` yields a single-frame RGB image); map the name `"jpg"`
to the encoder identifier `"JPEG"`, otherwise uppercase the format name.
Returns the save call performed and the output filename. -/
def image_convert (img : PILImage) (outputFormat : String) : SaveCall × String :=
  let lower := pyLower outputFormat
  let img2 : PILImage :=
    if (lower = "jpg" ∨ lower = "jpeg") ∧ img.mode = "RGBA" then
      { mode := "RGB", frames := 1 }
    else img
  let saveFormat := if lower = "jpg" then "JPEG" else pyUpper outputFormat
  ({ imageMode := img2.mode, imageFrames := img2.frames, format := saveFormat,
     saveAll := false, appended := 0 },
   "converted." ++ lower)

/-- Embedding of `image_to_pdf(uploaded_file)`: iterate every frame,
converting each to RGB (each converted frame is a single-frame image), fail
if there are none, then save the first converted frame with `save_all=True`
and the remaining `frames - 1` converted frames as `append_images`. -/
def image_to_pdf (img : PILImage) (fileName : String) :
    Except String (SaveCall × String) :=
  if img.frames = 0 then
    Except.error "The provided image file contains no frames to convert."
  else
    Except.ok
      ({ imageMode := "RGB", imageFrames := 1, format := "PDF",
         saveAll := true, appended := img.frames - 1 },
       splitextRoot fileName ++ ".pdf")

/-! ## Archive-producing handlers `split_pdf` and `pdf_to_image`
(src/conversion.py, lines 127-161) -/

/-- Model of Python `enumerate` starting at index `i`. -/
def enumerateFrom (i : Nat) : List α → List (Nat × α)
  | [] => []
  | a :: rest => (i, a) :: enumerateFrom (i + 1) rest

/-- The zip entry name `split_pdf` builds for the `i`-th (0-based) page group:
`f"split_part_{i+1}_pages_{page_list[0]+1}-{page_list[-1]+1}.pdf"`. -/
def splitPartName (i : Nat) (g : List Nat) : String :=
  "split_part_" ++ natStr (i + 1) ++ "_pages_" ++ natStr (g.headD 0 + 1)
    ++ "-" ++ natStr (g.getLastD 0 + 1) ++ ".pdf"

/-- Embedding of `split_pdf(uploaded_file, page_ranges)` for a document with
`docPageCount` pages and original filename `fileName`.  Each zip entry is the
pair of its name and the 0-based pages of the source document it contains
(the content of `new_doc` after `insert_pdf(doc, from_page_list=page_list)`).
Returns the entries plus the archive filename. -/
def split_pdf (docPageCount : Nat) (fileName : String) (pageRanges : String) :
    Except String (List (String × List Nat) × String) :=
  match parsePageRanges pageRanges docPageCount with
  | Except.error e => Except.error e
  | Except.ok groups =>
    Except.ok
      ((enumerateFrom 0 groups).map (fun ig => (splitPartName ig.1 ig.2, ig.2)),
       splitextRoot fileName ++ "_split.zip")

/-- Embedding of `pdf_to_image(uploaded_file, image_format)` for a document
with `docPageCount` pages: one zip entry per page, named
`f"page_{i+1}.{image_format.lower()}"`, paired with the 0-based page index it
renders.  Returns the entries plus the archive filename. -/
def pdf_to_image (docPageCount : Nat) (fileName : String) (imageFormat : String) :
    List (String × Nat) × String :=
  ((enumerateFrom 0 (List.range docPageCount)).map
     (fun ip => ("page_" ++ natStr (ip.1 + 1) ++ "." ++ pyLower imageFormat, ip.2)),
   splitextRoot fileName ++ "_images.zip")

/-! ## Claim-side definitions (formalising the spec's words, for comparison
with the source-derived definitions above) -/

/-- Modelled from the spec: PIL colour modes that carry an alpha channel
("the source has one [an alpha channel]").  Needed because the spec speaks of
images *having an alpha channel* while the source tests the mode string. -/
def hasAlphaMode (m : String) : Bool :=
  m == "RGBA" || m == "LA" || m == "PA" || m == "RGBa" || m == "La"

/-- Modelled from the spec: a clause "of the form `N` or `N-M`" with
`1 <= N <= M <= totalPages` (whitespace around the dash permitted, per the
spec's grammar).  A decimal numeral here is a non-empty all-digit string. -/
def claimClauseOK (part : List Char) (tp : Nat) : Bool :=
  (match (if !part.isEmpty && part.all Char.isDigit
          then parseDigitsStart part else none) with
   | some n => decide (1 ≤ n) && decide (n ≤ tp)
   | none => false)
  ||
  (match pySplit '-' part with
   | [a, b] =>
     (match (if !(stripChars a).isEmpty && (stripChars a).all Char.isDigit
             then parseDigitsStart (stripChars a) else none),
            (if !(stripChars b).isEmpty && (stripChars b).all Char.isDigit
             then parseDigitsStart (stripChars b) else none) with
      | some n, some m => decide (1 ≤ n) && decide (n ≤ m) && decide (m ≤ tp)
      | _, _ => false)
   | _ => false)

/-- Modelled from the spec: the conditions under which claim C3 says
`_parse_page_ranges` fails - empty/whitespace-only spec, or some
comma-separated clause that is not a well-formed in-bounds `N` / `N-M`. -/
def claimPredictsFailure (s : String) (tp : Nat) : Bool :=
  (stripChars s.data).isEmpty ||
  ((pySplit ',' s.data).map stripChars).any (fun p => !claimClauseOK p tp)

example : claimPredictsFailure "1,,3" 3 = true := by decide
example : claimPredictsFailure "1,3" 3 = false := by decide

/-! ## Workspace cleanup (claim C1) -/

lemma cleanupDir_files_all (fs : FS) (d : String) :
    ((cleanupDir fs d).files.all (fun pb => !(isUnder d pb.1))) = true := by
  simp only [cleanupDir, List.all_eq_true]
  intro x hx
  exact (List.mem_filter.mp hx).2

lemma cleanupDir_dirs_all (fs : FS) (d : String) :
    ((cleanupDir fs d).dirs.all (fun x => !(x == d) && !(isUnder d x))) = true := by
  simp only [cleanupDir, List.all_eq_true]
  intro x hx
  exact (List.mem_filter.mp hx).2

/-- Claim C1: every conversion that stages files in a temporary workspace
directory via `_convert_with_temp_file` (this covers both `pdf_to_docx` and
`docx_to_pdf`, whose conversion closures are instances of the `logic`
parameter) removes the temporary directory and every file inside it by the
time the call returns, on every exit path: normal return, conversion-logic
error, tool-invocation error (an error raised inside `logic`), or failure to
read the output file. -/
theorem convertWithTempFile_cleans_tempdir (fs : FS) (tempDir uploadName : String)
    (uploadContent : Bytes)
    (logic : FS → String → String → Except String (FS × String)) :
    ((convertWithTempFile fs tempDir uploadName uploadContent logic).1.files.all
        (fun pb => !(isUnder tempDir pb.1))) = true ∧
    ((convertWithTempFile fs tempDir uploadName uploadContent logic).1.dirs.all
        (fun x => !(x == tempDir) && !(isUnder tempDir x))) = true := by
  unfold convertWithTempFile
  cases hlogic : logic
      (fsWrite { dirs := tempDir :: fs.dirs, files := fs.files }
        (pathJoin tempDir uploadName) uploadContent)
      (pathJoin tempDir uploadName) tempDir with
  | error e =>
    simp only [hlogic]
    exact ⟨cleanupDir_files_all _ _, cleanupDir_dirs_all _ _⟩
  | ok p =>
    obtain ⟨fs3, outputPath⟩ := p
    simp only [hlogic]
    cases hread : fsRead fs3 outputPath with
    | none =>
      simp only [hread]
      exact ⟨cleanupDir_files_all _ _, cleanupDir_dirs_all _ _⟩
    | some data =>
      simp only [hread]
      exact ⟨cleanupDir_files_all _ _, cleanupDir_dirs_all _ _⟩

/-! ## `docx_to_pdf` error classification (claim C5) -/

/-- Claim C5: `docx_to_pdf` classifies every external-tool outcome into a
distinct named failure: a missing executable gives `toolNotFound` (which is
never equal to a generic `toolFailed` value), a timeout gives `toolTimedOut`,
a non-zero exit gives `toolFailed` carrying the captured stderr, and a clean
exit without the expected output PDF gives `outputMissing`. -/
theorem docx_to_pdf_error_classification
    (code : Nat) (stdout stderr : String) (outputExists : Bool)
    (inputPath tempDir : String) (hcode : code ≠ 0) :
    docxConvertLogic RunOutcome.notFound outputExists inputPath tempDir
        = Except.error DocxError.toolNotFound ∧
    (∀ s, (Except.error DocxError.toolNotFound : Except DocxError String)
        ≠ Except.error (DocxError.toolFailed s)) ∧
    docxConvertLogic RunOutcome.timedOut outputExists inputPath tempDir
        = Except.error DocxError.toolTimedOut ∧
    docxConvertLogic (RunOutcome.completed code stdout stderr) outputExists inputPath tempDir
        = Except.error (DocxError.toolFailed stderr) ∧
    docxConvertLogic (RunOutcome.completed 0 stdout stderr) false inputPath tempDir
        = Except.error (DocxError.outputMissing (docxOutputPath inputPath tempDir)) := by
  refine ⟨rfl, ?_, rfl, ?_, rfl⟩
  · intro s h
    simp at h
  · simp [docxConvertLogic, hcode]

theorem docx_to_pdf_error_classification_witness :
    docxConvertLogic RunOutcome.notFound true "/tmp/w/a.docx" "/tmp/w"
        = Except.error DocxError.toolNotFound ∧
    docxConvertLogic (RunOutcome.completed 1 "" "boom") true "/tmp/w/a.docx" "/tmp/w"
        = Except.error (DocxError.toolFailed "boom") ∧
    docxConvertLogic (RunOutcome.completed 0 "" "") false "/tmp/w/a.docx" "/tmp/w"
        = Except.error (DocxError.outputMissing (docxOutputPath "/tmp/w/a.docx" "/tmp/w")) := by
  have h := docx_to_pdf_error_classification 1 "" "boom" true "/tmp/w/a.docx" "/tmp/w"
    (by decide)
  exact ⟨h.1, h.2.2.2.1, by
    have h0 := docx_to_pdf_error_classification 1 "" "" false "/tmp/w/a.docx" "/tmp/w"
      (by decide)
    exact h0.2.2.2.2⟩

/-! ## Office-export environment (claim C6) -/

/-- Claim C6 counterexample: the `soffice` invocation made by `docx_to_pdf`
passes no environment override at all, so in particular no home-directory
override pointing at the per-request workspace directory is pinned for the
invocation, contrary to the claim. -/
theorem soffice_env_no_home_override :
    ¬ ∃ env, (sofficeInvocation "/tmp/work/input.docx" "/tmp/work").envOverride = some env
        ∧ ("HOME", "/tmp/work") ∈ env := by
  rintro ⟨env, henv, -⟩
  simp [sofficeInvocation] at henv

/-- Claim C6 amended: the office-export invocation passes no environment
override (`env=` is not given to `subprocess.run`, the child inherits the
parent environment); the program's only environment adjustment is a global
`XDG_RUNTIME_DIR` default of the fixed path `/tmp/runtime-appuser` set once
at app startup - it is not per-request and not a home-directory override. -/
theorem soffice_env_inherited (inputPath tempDir : String) :
    (sofficeInvocation inputPath tempDir).envOverride = none ∧
    appStartupEnvDefaults.all (fun kv => !(kv.1 == "HOME")) = true ∧
    appStartupEnvDefaults = [("XDG_RUNTIME_DIR", "/tmp/runtime-appuser")] :=
  ⟨rfl, by decide, rfl⟩

/-! ## `image_convert` alpha flattening and format normalization (claim C8) -/

/-- Claim C8 counterexample: an `"LA"`-mode source (luminance plus alpha, so
it has an alpha channel) targeted at `jpg` is passed to the encoder
unflattened - `image_convert` only flattens when the mode is exactly
`"RGBA"`, so the claim's "every source image that has an alpha channel" is
false at this input. -/
theorem image_convert_LA_not_flattened :
    hasAlphaMode "LA" = true ∧
    pyLower "jpg" = "jpg" ∧
    (image_convert ⟨"LA", 1⟩ "jpg").1.imageMode = "LA" ∧
    hasAlphaMode (image_convert ⟨"LA", 1⟩ "jpg").1.imageMode = true := by
  refine ⟨by decide, by decide, by decide, by decide⟩

/-- Claim C8 amended: when targeting jpg/jpeg, `image_convert` flattens the
image to the opaque `"RGB"` model exactly when the source mode is `"RGBA"`
(other alpha-bearing modes are passed through unchanged), and the three-letter
format name `"jpg"` is normalized to the canonical encoder identifier
`"JPEG"` before saving. -/
theorem image_convert_flatten_amended (img : PILImage) (fmt : String) :
    ((pyLower fmt = "jpg" ∨ pyLower fmt = "jpeg") ∧ img.mode = "RGBA" →
        (image_convert img fmt).1.imageMode = "RGB") ∧
    (¬ ((pyLower fmt = "jpg" ∨ pyLower fmt = "jpeg") ∧ img.mode = "RGBA") →
        (image_convert img fmt).1.imageMode = img.mode) ∧
    (pyLower fmt = "jpg" → (image_convert img fmt).1.format = "JPEG") := by
  refine ⟨?_, ?_, ?_⟩
  · intro h
    simp only [image_convert]
    rw [if_pos h]
  · intro h
    simp only [image_convert]
    rw [if_neg h]
  · intro h
    simp only [image_convert]
    rw [if_pos h]

theorem image_convert_flatten_amended_witness :
    (image_convert ⟨"RGBA", 1⟩ "jpg").1.imageMode = "RGB" ∧
    (image_convert ⟨"RGBA", 1⟩ "jpg").1.format = "JPEG" := by
  have h := image_convert_flatten_amended ⟨"RGBA", 1⟩ "jpg"
  exact ⟨h.1 ⟨Or.inl (by decide), rfl⟩, h.2.2 (by decide)⟩

/-! ## Single-frame encoding in `image_convert` (claim C10) -/

/-- Claim C10: for every multi-frame source image, `image_convert` encodes
only the first frame (its `save` call is made without `save_all`, so exactly
one frame is written), while `image_to_pdf` writes every frame: its save call
uses `save_all=True` with the remaining frames appended, producing one PDF
page per source frame. -/
theorem image_convert_first_frame_only (mode : String) (n : Nat) (fmt name : String)
    (h : 1 ≤ n) :
    framesWritten (image_convert ⟨mode, n⟩ fmt).1 = 1 ∧
    ∃ call, image_to_pdf ⟨mode, n⟩ name
        = Except.ok (call, splitextRoot name ++ ".pdf") ∧ framesWritten call = n := by
  constructor
  · by_cases hc : (pyLower fmt = "jpg" ∨ pyLower fmt = "jpeg") ∧ mode = "RGBA"
    · simp [image_convert, framesWritten, hc]
    · simp [image_convert, framesWritten, hc]
      omega
  · have hn0 : n ≠ 0 := by omega
    refine ⟨⟨"RGB", 1, "PDF", true, n - 1⟩, by simp [image_to_pdf, hn0], ?_⟩
    have hfw : framesWritten ⟨"RGB", 1, "PDF", true, n - 1⟩ = min 1 1 + (n - 1) := rfl
    rw [hfw]
    omega

theorem image_convert_first_frame_only_witness :
    framesWritten (image_convert ⟨"P", 3⟩ "png").1 = 1 ∧
    ∃ call, image_to_pdf ⟨"P", 3⟩ "anim.gif"
        = Except.ok (call, splitextRoot "anim.gif" ++ ".pdf") ∧ framesWritten call = 3 :=
  image_convert_first_frame_only "P" 3 "png" "anim.gif" (by decide)

/-! ## Digit and numeral lemmas -/

lemma digitChar_isDigit (k : Nat) (h : k < 10) : (digitChar k).isDigit = true := by
  interval_cases k <;> decide

lemma digitChar_toNat (k : Nat) (h : k < 10) : (digitChar k).toNat = 48 + k := by
  interval_cases k <;> decide

lemma isDigit_ne_dash {c : Char} (h : c.isDigit = true) : c ≠ '-' := by
  rintro rfl; exact absurd h (by decide)

lemma isDigit_ne_plus {c : Char} (h : c.isDigit = true) : c ≠ '+' := by
  rintro rfl; exact absurd h (by decide)

lemma isDigit_ne_comma {c : Char} (h : c.isDigit = true) : c ≠ ',' := by
  rintro rfl; exact absurd h (by decide)

lemma isDigit_ne_slash {c : Char} (h : c.isDigit = true) : c ≠ '/' := by
  rintro rfl; exact absurd h (by decide)

lemma isDigit_not_ws {c : Char} (h : c.isDigit = true) : isPyWs c = false := by
  cases hw : isPyWs c
  · rfl
  · exfalso
    simp only [isPyWs, Bool.or_eq_true, beq_iff_eq] at hw
    rcases hw with ((((h1 | h1) | h1) | h1) | h1) | h1 <;> subst h1 <;>
      exact absurd h (by decide)

lemma natDigitsRevAux_zero (fuel : Nat) : natDigitsRevAux 0 fuel = [] := by
  cases fuel <;> simp [natDigitsRevAux]

lemma natDigitsRevAux_fuel_irrel :
    ∀ f1 f2 n : Nat, n ≤ f1 → n ≤ f2 →
      natDigitsRevAux n f1 = natDigitsRevAux n f2 := by
  intro f1
  induction f1 using Nat.strong_induction_on with
  | _ f1 ih =>
    intro f2 n h1 h2
    cases n with
    | zero => rw [natDigitsRevAux_zero, natDigitsRevAux_zero]
    | succ m =>
      obtain ⟨f1x, rfl⟩ : ∃ k, f1 = k + 1 := ⟨f1 - 1, by omega⟩
      obtain ⟨f2x, rfl⟩ : ∃ k, f2 = k + 1 := ⟨f2 - 1, by omega⟩
      simp only [natDigitsRevAux, Nat.succ_ne_zero, if_false]
      congr 1
      have hd : (m + 1) / 10 < m + 1 := Nat.div_lt_self (by omega) (by norm_num)
      exact ih f1x (by omega) f2x ((m + 1) / 10) (by omega) (by omega)

lemma natDigitsRev_succ (n : Nat) (h : n ≠ 0) :
    natDigitsRev n = digitChar (n % 10) :: natDigitsRev (n / 10) := by
  unfold natDigitsRev
  obtain ⟨m, rfl⟩ : ∃ k, n = k + 1 := ⟨n - 1, by omega⟩
  simp only [natDigitsRevAux, Nat.succ_ne_zero, if_false]
  congr 1
  have hd : (m + 1) / 10 < m + 1 := Nat.div_lt_self (by omega) (by norm_num)
  exact natDigitsRevAux_fuel_irrel m ((m + 1) / 10) ((m + 1) / 10) (by omega) (by omega)

lemma natDigitsRev_all_digits (n : Nat) : ∀ c ∈ natDigitsRev n, c.isDigit = true := by
  induction n using Nat.strong_induction_on with
  | _ n ih =>
    by_cases h : n = 0
    · subst h; intro c hc; simp [natDigitsRev, natDigitsRevAux_zero] at hc
    · rw [natDigitsRev_succ n h]
      intro c hc
      rcases List.mem_cons.mp hc with rfl | hc
      · exact digitChar_isDigit _ (Nat.mod_lt _ (by norm_num))
      · exact ih (n / 10) (Nat.div_lt_self (by omega) (by norm_num)) c hc

lemma natDigitsRev_ne_nil (n : Nat) (h : n ≠ 0) : natDigitsRev n ≠ [] := by
  rw [natDigitsRev_succ n h]; simp

lemma digitsCore_digit (acc : Nat) (c : Char) (rest : List Char) (h : c.isDigit = true) :
    digitsCore acc (c :: rest) = digitsCore (10 * acc + (c.toNat - 48)) rest := by
  conv_lhs => rw [digitsCore.eq_def]
  dsimp only
  rw [if_pos h]

lemma digitsCore_natDigitsRev (n : Nat) :
    ∀ acc rest, digitsCore acc ((natDigitsRev n).reverse ++ rest)
      = digitsCore (acc * 10 ^ (natDigitsRev n).length + n) rest := by
  induction n using Nat.strong_induction_on with
  | _ n ih =>
    intro acc rest
    by_cases h : n = 0
    · subst h
      simp [natDigitsRev, natDigitsRevAux_zero]
    · rw [natDigitsRev_succ n h]
      have hq : n / 10 < n := Nat.div_lt_self (by omega) (by norm_num)
      have hm : n % 10 < 10 := Nat.mod_lt _ (by norm_num)
      rw [List.reverse_cons, List.append_assoc]
      rw [ih (n / 10) hq acc ([digitChar (n % 10)] ++ rest)]
      rw [show ([digitChar (n % 10)] ++ rest) = digitChar (n % 10) :: rest from rfl]
      rw [digitsCore_digit _ _ _ (digitChar_isDigit _ hm)]
      rw [digitChar_toNat _ hm]
      rw [List.length_cons]
      congr 1
      rw [pow_succ]
      have h48 : 48 + n % 10 - 48 = n % 10 := by omega
      rw [h48]
      set q := n / 10 with hq10
      set r := n % 10 with hr10
      have hdm : n = 10 * q + r := by omega
      rw [hdm]
      ring

lemma parseDigitsStart_natStrL (n : Nat) : parseDigitsStart (natStrL n) = some n := by
  by_cases h : n = 0
  · subst h; decide
  · unfold natStrL
    rw [if_neg h]
    obtain ⟨c, cs, hcons⟩ : ∃ c cs, (natDigitsRev n).reverse = c :: cs := by
      cases hrev : (natDigitsRev n).reverse with
      | nil => exact absurd (List.reverse_eq_nil_iff.mp hrev) (natDigitsRev_ne_nil n h)
      | cons c cs => exact ⟨c, cs, rfl⟩
    have hcd : c.isDigit = true := by
      apply natDigitsRev_all_digits n c
      rw [← List.mem_reverse, hcons]
      exact List.mem_cons_self c cs
    rw [hcons]
    show (if c.isDigit then digitsCore (c.toNat - 48) cs else none) = some n
    rw [if_pos hcd]
    have h2 : digitsCore 0 (c :: cs) = digitsCore (c.toNat - 48) cs := by
      rw [digitsCore_digit 0 c cs hcd]; norm_num
    rw [← h2, ← hcons]
    have h3 := digitsCore_natDigitsRev n 0 []
    rw [List.append_nil] at h3
    rw [h3, Nat.zero_mul, Nat.zero_add]
    rfl

/-! ## Strip, split and membership lemmas -/

lemma dropWhile_eq_self_of_all {p : Char → Bool} {l : List Char}
    (h : ∀ c ∈ l, p c = false) : l.dropWhile p = l := by
  cases l with
  | nil => rfl
  | cons c cs =>
    rw [List.dropWhile_cons_of_neg]
    simp [h c (List.mem_cons_self c cs)]

lemma stripChars_eq_self {l : List Char} (h : ∀ c ∈ l, isPyWs c = false) :
    stripChars l = l := by
  unfold stripChars
  rw [dropWhile_eq_self_of_all h]
  rw [dropWhile_eq_self_of_all (fun c hc => h c (List.mem_reverse.mp hc))]
  exact List.reverse_reverse l

lemma containsChar_eq_false {c : Char} {l : List Char} (h : ∀ d ∈ l, d ≠ c) :
    containsChar c l = false := by
  induction l with
  | nil => rfl
  | cons d rest ih =>
    have h1 : (d == c) = false :=
      beq_eq_false_iff_ne.mpr (h d (List.mem_cons_self d rest))
    have h2 : containsChar c rest = false :=
      ih (fun x hx => h x (List.mem_cons_of_mem d hx))
    simp [containsChar, h1, h2]

lemma containsChar_append (c : Char) (a b : List Char) :
    containsChar c (a ++ b) = (containsChar c a || containsChar c b) := by
  induction a with
  | nil => simp [containsChar]
  | cons d rest ih => simp [containsChar, ih, Bool.or_assoc]

lemma pySplit_cons (sep c : Char) (l : List Char) :
    pySplit sep (c :: l) = match pySplit sep l with
      | [] => [[]]
      | h :: t => if c = sep then [] :: h :: t else (c :: h) :: t := rfl

lemma pySplit_ne_nil (sep : Char) (l : List Char) : pySplit sep l ≠ [] := by
  cases l with
  | nil => simp [pySplit]
  | cons c rest =>
    simp only [pySplit]
    cases pySplit sep rest with
    | nil => simp
    | cons h t =>
      dsimp only
      split <;> simp

lemma pySplit_no_sep {sep : Char} {l : List Char} (h : containsChar sep l = false) :
    pySplit sep l = [l] := by
  induction l with
  | nil => rfl
  | cons c rest ih =>
    simp only [containsChar, Bool.or_eq_false_iff, beq_eq_false_iff_ne] at h
    simp only [pySplit, ih h.2]
    rw [if_neg h.1]

lemma pySplit_append {sep : Char} {a : List Char} (rest : List Char)
    (h : containsChar sep a = false) :
    pySplit sep (a ++ sep :: rest) = a :: pySplit sep rest := by
  induction a with
  | nil =>
    cases hps : pySplit sep rest with
    | nil => exact absurd hps (pySplit_ne_nil sep rest)
    | cons x t =>
      simp only [List.nil_append, pySplit, hps]
      simp
  | cons c ax ih =>
    simp only [containsChar, Bool.or_eq_false_iff, beq_eq_false_iff_ne] at h
    have hstep : (c :: ax) ++ sep :: rest = c :: (ax ++ sep :: rest) := rfl
    rw [hstep, pySplit_cons, ih h.2]
    dsimp only
    rw [if_neg h.1]

/-! ## `sortDedup` on already-sorted inputs -/

lemma sortDedup_singleton (n : Nat) : sortDedup [n] = [n] := rfl

lemma sortDedup_range' (a len : Nat) :
    sortDedup (List.range' a len) = List.range' a len := by
  induction len generalizing a with
  | zero => rfl
  | succ m ih =>
    have hr : List.range' a (m + 1) = a :: List.range' (a + 1) m := rfl
    rw [hr]
    show insertDedup a (sortDedup (List.range' (a + 1) m)) = a :: List.range' (a + 1) m
    rw [ih (a + 1)]
    cases m with
    | zero => rfl
    | succ k =>
      show insertDedup a ((a + 1) :: List.range' (a + 2) k) = _
      unfold insertDedup
      rw [if_pos (by omega)]
      rfl

/-! ## Round trip: rendered numerals parse back through `pyIntCore` -/

lemma natStrL_all_digits (n : Nat) : ∀ c ∈ natStrL n, c.isDigit = true := by
  unfold natStrL
  by_cases h : n = 0
  · rw [if_pos h]; intro c hc; simp at hc; subst hc; decide
  · rw [if_neg h]
    intro c hc
    exact natDigitsRev_all_digits n c (List.mem_reverse.mp hc)

lemma natStrL_ne_nil (n : Nat) : natStrL n ≠ [] := by
  unfold natStrL
  by_cases h : n = 0
  · rw [if_pos h]; simp
  · rw [if_neg h]
    simpa using natDigitsRev_ne_nil n h

lemma pyIntCore_natStrL (n : Nat) : pyIntCore (natStrL n) = some (n : Int) := by
  have hall := natStrL_all_digits n
  obtain ⟨c, cs, hcons⟩ : ∃ c cs, natStrL n = c :: cs := by
    cases hl : natStrL n with
    | nil => exact absurd hl (natStrL_ne_nil n)
    | cons c cs => exact ⟨c, cs, rfl⟩
  have hcd : c.isDigit = true := hall c (by rw [hcons]; exact List.mem_cons_self c cs)
  unfold pyIntCore
  rw [stripChars_eq_self (fun d hd => isDigit_not_ws (hall d hd))]
  rw [hcons]
  dsimp only
  rw [if_neg (isDigit_ne_plus hcd), if_neg (isDigit_ne_dash hcd)]
  rw [← hcons, parseDigitsStart_natStrL n]
  rfl

/-! ## Canonical clauses: the abstract form of a valid `"N"` / `"N-M"` clause -/

/-- A clause as claims C2 and C9 quantify over it: a single page number `N`
or a page interval `N-M` (1-based). -/
inductive Clause where
  | single (n : Nat)
  | interval (n m : Nat)
deriving DecidableEq

/-- The textual rendering of a clause: `"N"` or `"N-M"`. -/
def clauseStrL : Clause → List Char
  | Clause.single n => natStrL n
  | Clause.interval n m => natStrL n ++ '-' :: natStrL m

/-- Validity of a clause for a document of `tp` pages: `1 <= N <= tp`,
respectively `1 <= N <= M <= tp`. -/
def ClauseValid (tp : Nat) : Clause → Prop
  | Clause.single n => 1 ≤ n ∧ n ≤ tp
  | Clause.interval n m => 1 ≤ n ∧ n ≤ m ∧ m ≤ tp

instance (tp : Nat) (c : Clause) : Decidable (ClauseValid tp c) := by
  cases c <;> (unfold ClauseValid; infer_instance)

/-- The page group the spec assigns to a clause: exactly
`{N-1, ..., M-1}` (zero-based), as a sorted duplicate-free list. -/
def clauseGroup : Clause → List Nat
  | Clause.single n => [n - 1]
  | Clause.interval n m => List.range' (n - 1) (m - n + 1)

lemma parseClause_single (n tp : Nat) (h1 : 1 ≤ n) (h2 : n ≤ tp) :
    parseClause (natStrL n) tp = Except.ok [n - 1] := by
  have hnod : containsChar '-' (natStrL n) = false :=
    containsChar_eq_false (fun d hd => isDigit_ne_dash (natStrL_all_digits n d hd))
  unfold parseClause
  rw [hnod, if_neg Bool.false_ne_true]
  rw [pyIntCore_natStrL n]
  dsimp only
  rw [if_pos (by omega)]
  have hn : ((n : Int)).toNat = n := by omega
  rw [hn]

lemma parseClause_interval (n m tp : Nat) (h1 : 1 ≤ n) (h2 : n ≤ m) (h3 : m ≤ tp) :
    parseClause (natStrL n ++ '-' :: natStrL m) tp
      = Except.ok (List.range' (n - 1) (m - n + 1)) := by
  have hdash : containsChar '-' (natStrL n ++ '-' :: natStrL m) = true := by
    rw [containsChar_append]
    simp [containsChar]
  have hsplit : pySplit '-' (natStrL n ++ '-' :: natStrL m)
      = [natStrL n, natStrL m] := by
    rw [pySplit_append _ (containsChar_eq_false
      (fun d hd => isDigit_ne_dash (natStrL_all_digits n d hd)))]
    rw [pySplit_no_sep (containsChar_eq_false
      (fun d hd => isDigit_ne_dash (natStrL_all_digits m d hd)))]
  unfold parseClause
  rw [hdash, if_pos rfl, hsplit]
  dsimp only
  rw [pyIntCore_natStrL n, pyIntCore_natStrL m]
  dsimp only
  rw [if_pos (by omega)]
  have e1 : ((n : Int)).toNat = n := by omega
  have e2 : ((m : Int)).toNat = m := by omega
  rw [e1, e2]
  have harg : m + 1 - n = m - n + 1 := by omega
  rw [harg]

lemma clauseGroup_parseClause (tp : Nat) (c : Clause) (h : ClauseValid tp c) :
    parseClause (clauseStrL c) tp = Except.ok (clauseGroup c) := by
  cases c with
  | single n => exact parseClause_single n tp h.1 h.2
  | interval n m => exact parseClause_interval n m tp h.1 h.2.1 h.2.2

lemma clauseGroup_ne_nil (c : Clause) : clauseGroup c ≠ [] := by
  cases c with
  | single n => simp [clauseGroup]
  | interval n m =>
    simp only [clauseGroup, ne_eq, List.range'_eq_nil]
    omega

lemma sortDedup_clauseGroup (c : Clause) : sortDedup (clauseGroup c) = clauseGroup c := by
  cases c with
  | single n => rfl
  | interval n m => exact sortDedup_range' _ _

lemma collectGroups_canonical (tp : Nat) (cs : List Clause)
    (h : ∀ c ∈ cs, ClauseValid tp c) :
    collectGroups tp (cs.map clauseStrL) = Except.ok (cs.map clauseGroup) := by
  induction cs with
  | nil => rfl
  | cons c cs2 ih =>
    have hc := h c (List.mem_cons_self c cs2)
    simp only [List.map_cons, collectGroups]
    rw [clauseGroup_parseClause tp c hc]
    rw [ih (fun x hx => h x (List.mem_cons_of_mem c hx))]
    dsimp only
    rw [if_neg (by simpa using clauseGroup_ne_nil c)]
    rw [sortDedup_clauseGroup c]

/-! ## Joining clauses with commas and splitting back -/

/-- Comma-join of rendered clauses, producing a range-specification string. -/
def joinComma : List (List Char) → List Char
  | [] => []
  | [c] => c
  | c :: rest => c ++ ',' :: joinComma rest

lemma joinComma_cons2 (a b : List Char) (rest : List (List Char)) :
    joinComma (a :: b :: rest) = a ++ ',' :: joinComma (b :: rest) := rfl

lemma pySplit_joinComma (ls : List (List Char))
    (h : ∀ l ∈ ls, containsChar ',' l = false) (hne : ls ≠ []) :
    pySplit ',' (joinComma ls) = ls := by
  induction ls with
  | nil => exact absurd rfl hne
  | cons a rest ih =>
    cases rest with
    | nil => exact pySplit_no_sep (h a (List.mem_cons_self a []))
    | cons b rest2 =>
      rw [joinComma_cons2]
      rw [pySplit_append _ (h a (List.mem_cons_self _ _))]
      rw [ih (fun x hx => h x (List.mem_cons_of_mem a hx)) (by simp)]

lemma joinComma_chars (ls : List (List Char)) :
    ∀ d ∈ joinComma ls, d = ',' ∨ ∃ l ∈ ls, d ∈ l := by
  induction ls with
  | nil => intro d hd; cases hd
  | cons a rest ih =>
    cases rest with
    | nil => intro d hd; exact Or.inr ⟨a, List.mem_cons_self _ _, hd⟩
    | cons b rest2 =>
      intro d hd
      rw [joinComma_cons2] at hd
      rcases List.mem_append.mp hd with hh | hh
      · exact Or.inr ⟨a, List.mem_cons_self _ _, hh⟩
      · rcases List.mem_cons.mp hh with rfl | hh
        · exact Or.inl rfl
        · rcases ih d hh with hc | ⟨l, hl, hdl⟩
          · exact Or.inl hc
          · exact Or.inr ⟨l, List.mem_cons_of_mem _ hl, hdl⟩

lemma joinComma_ne_nil (ls : List (List Char)) (hne : ls ≠ [])
    (h : ∀ l ∈ ls, l ≠ []) : joinComma ls ≠ [] := by
  cases ls with
  | nil => exact absurd rfl hne
  | cons a rest =>
    cases rest with
    | nil => exact h a (List.mem_cons_self _ _)
    | cons b rest2 =>
      rw [joinComma_cons2]
      simp

/-! ## Clause-string character facts -/

lemma clauseStrL_char_cases (c : Clause) :
    ∀ d ∈ clauseStrL c, d.isDigit = true ∨ d = '-' := by
  cases c with
  | single n => exact fun d hd => Or.inl (natStrL_all_digits n d hd)
  | interval n m =>
    intro d hd
    rcases List.mem_append.mp hd with hh | hh
    · exact Or.inl (natStrL_all_digits n d hh)
    · rcases List.mem_cons.mp hh with rfl | hh
      · exact Or.inr rfl
      · exact Or.inl (natStrL_all_digits m d hh)

lemma clauseStrL_not_ws (c : Clause) : ∀ d ∈ clauseStrL c, isPyWs d = false := by
  intro d hd
  rcases clauseStrL_char_cases c d hd with hh | rfl
  · exact isDigit_not_ws hh
  · decide

lemma clauseStrL_no_comma (c : Clause) : containsChar ',' (clauseStrL c) = false := by
  apply containsChar_eq_false
  intro d hd
  rcases clauseStrL_char_cases c d hd with hh | rfl
  · exact isDigit_ne_comma hh
  · decide

lemma clauseStrL_ne_nil (c : Clause) : clauseStrL c ≠ [] := by
  cases c with
  | single n => exact natStrL_ne_nil n
  | interval n m => simp [clauseStrL]

/-! ## Parsing a canonical comma-joined clause list -/

lemma nonEmptyParts_joinComma (cs : List Clause) (hne : cs ≠ []) :
    nonEmptyParts ⟨joinComma (cs.map clauseStrL)⟩ = cs.map clauseStrL := by
  unfold nonEmptyParts
  rw [show (⟨joinComma (cs.map clauseStrL)⟩ : String).data
      = joinComma (cs.map clauseStrL) from rfl]
  rw [pySplit_joinComma _
    (by intro l hl
        obtain ⟨c, _, rfl⟩ := List.mem_map.mp hl
        exact clauseStrL_no_comma c)
    (by simpa using hne)]
  have hmap : (cs.map clauseStrL).map stripChars = cs.map clauseStrL := by
    rw [List.map_map]
    apply List.map_congr_left
    intro c _
    exact stripChars_eq_self (clauseStrL_not_ws c)
  rw [hmap]
  apply List.filter_eq_self.mpr
  intro a ha
  obtain ⟨c, _, rfl⟩ := List.mem_map.mp ha
  simpa using clauseStrL_ne_nil c

lemma parsePageRanges_canonical (tp : Nat) (cs : List Clause) (hne : cs ≠ [])
    (hv : ∀ c ∈ cs, ClauseValid tp c) :
    parsePageRanges ⟨joinComma (cs.map clauseStrL)⟩ tp
      = Except.ok (cs.map clauseGroup) := by
  have hjws : ∀ d ∈ joinComma (cs.map clauseStrL), isPyWs d = false := by
    intro d hd
    rcases joinComma_chars _ d hd with rfl | ⟨l, hl, hdl⟩
    · decide
    · obtain ⟨c, _, rfl⟩ := List.mem_map.mp hl
      exact clauseStrL_not_ws c d hdl
  have hjne : joinComma (cs.map clauseStrL) ≠ [] :=
    joinComma_ne_nil _ (by simpa using hne)
      (by intro l hl
          obtain ⟨c, _, rfl⟩ := List.mem_map.mp hl
          exact clauseStrL_ne_nil c)
  unfold parsePageRanges
  rw [show (⟨joinComma (cs.map clauseStrL)⟩ : String).data
      = joinComma (cs.map clauseStrL) from rfl]
  rw [stripChars_eq_self hjws]
  rw [if_neg (by simpa using hjne)]
  rw [nonEmptyParts_joinComma cs hne]
  rw [collectGroups_canonical tp cs hv]
  dsimp only
  rw [if_neg (by simpa using hne)]

/-! ## Claims C2 and C9 -/

/-- Claim C2: for every `totalPages >= 1` and every list of clauses of the
form `N` or `N-M` with `1 <= N <= M <= totalPages`, `_parse_page_ranges`
yields for each clause the group `{N-1, ..., M-1}` (sorted ascending, no
duplicates, here the list `range' (N-1) (M-N+1)`), with the output groups in
the same order as the clauses; in particular `"1-3, 5, 7-9"` with
`totalPages = 10` yields exactly `[[0,1,2], [4], [6,7,8]]`. -/
theorem parse_page_ranges_valid_clauses (tp : Nat) (cs : List Clause)
    (_htp : 1 ≤ tp) (hne : cs ≠ []) (hv : ∀ c ∈ cs, ClauseValid tp c) :
    parsePageRanges ⟨joinComma (cs.map clauseStrL)⟩ tp
        = Except.ok (cs.map clauseGroup) ∧
    parsePageRanges "1-3, 5, 7-9" 10 = Except.ok [[0, 1, 2], [4], [6, 7, 8]] :=
  ⟨parsePageRanges_canonical tp cs hne hv, by decide⟩

theorem parse_page_ranges_valid_clauses_witness :
    parsePageRanges ⟨joinComma ([Clause.interval 1 3, Clause.single 5,
        Clause.interval 7 9].map clauseStrL)⟩ 10
      = Except.ok ([Clause.interval 1 3, Clause.single 5,
          Clause.interval 7 9].map clauseGroup) ∧
    parsePageRanges "1-3, 5, 7-9" 10 = Except.ok [[0, 1, 2], [4], [6, 7, 8]] :=
  parse_page_ranges_valid_clauses 10
    [Clause.interval 1 3, Clause.single 5, Clause.interval 7 9]
    (by decide) (by simp) (by decide)

/-- Claim C9: deduplication happens only within a single clause, never across
clauses: for clauses that select overlapping pages, `_parse_page_ranges`
succeeds and returns one group per clause, the shared index appearing in each
group that selects it (e.g. `"1-3,2"` yields `[[0,1,2],[1]]`). -/
theorem parse_page_ranges_dedup_within_clause (tp : Nat) (c1 c2 : Clause)
    (h1 : ClauseValid tp c1) (h2 : ClauseValid tp c2)
    (hov : ∃ k, k ∈ clauseGroup c1 ∧ k ∈ clauseGroup c2) :
    parsePageRanges ⟨joinComma [clauseStrL c1, clauseStrL c2]⟩ tp
      = Except.ok [clauseGroup c1, clauseGroup c2] := by
  have h := parsePageRanges_canonical tp [c1, c2] (by simp) (by
    intro c hc
    rcases List.mem_cons.mp hc with rfl | hc
    · exact h1
    · rcases List.mem_cons.mp hc with rfl | hc
      · exact h2
      · cases hc)
  exact h

theorem parse_page_ranges_dedup_within_clause_witness :
    parsePageRanges ⟨joinComma [clauseStrL (Clause.interval 1 3),
        clauseStrL (Clause.single 2)]⟩ 3
      = Except.ok [[0, 1, 2], [1]] := by
  have h := parse_page_ranges_dedup_within_clause 3
    (Clause.interval 1 3) (Clause.single 2)
    (by decide) (by decide) ⟨1, by decide, by decide⟩
  rw [h]
  decide

/-! ## Failure characterisation of `_parse_page_ranges` (claims C3 and C4) -/

lemma parseClause_ok_ne_nil {part : List Char} {tp : Nat} {g : List Nat}
    (h : parseClause part tp = Except.ok g) : g ≠ [] := by
  unfold parseClause at h
  split at h
  · split at h
    · split at h
      · split at h
        · rename_i hcond
          injection h with h2
          intro hnil
          rw [← h2, List.range'_eq_nil] at hnil
          omega
        · exact Except.noConfusion h
      · exact Except.noConfusion h
    · exact Except.noConfusion h
  · split at h
    · split at h
      · injection h with h2
        intro hnil
        rw [← h2] at hnil
        simp at hnil
      · exact Except.noConfusion h
    · exact Except.noConfusion h

lemma collectGroups_error_iff (tp : Nat) (ps : List (List Char)) :
    exceptIsError (collectGroups tp ps) = true ↔
      ∃ p ∈ ps, exceptIsError (parseClause p tp) = true := by
  induction ps with
  | nil => simp [collectGroups, exceptIsError]
  | cons p ps ih =>
    simp only [collectGroups]
    cases hp : parseClause p tp with
    | error e =>
      constructor
      · intro _
        exact ⟨p, List.mem_cons_self _ _, by rw [hp]; rfl⟩
      · intro _
        rfl
    | ok g =>
      cases hrest : collectGroups tp ps with
      | error e =>
        constructor
        · intro _
          obtain ⟨q, hq, hqe⟩ := ih.mp (by rw [hrest]; rfl)
          exact ⟨q, List.mem_cons_of_mem _ hq, hqe⟩
        · intro _
          rfl
      | ok gs =>
        constructor
        · intro hfalse
          simp [exceptIsError] at hfalse
        · rintro ⟨q, hq, hqe⟩
          exfalso
          rcases List.mem_cons.mp hq with rfl | hq
          · rw [hp] at hqe
            simp [exceptIsError] at hqe
          · have hik := ih.mpr ⟨q, hq, hqe⟩
            rw [hrest] at hik
            simp [exceptIsError] at hik

lemma collectGroups_ok_nil_iff {tp : Nat} {ps : List (List Char)} {gs : List (List Nat)}
    (h : collectGroups tp ps = Except.ok gs) : gs = [] ↔ ps = [] := by
  induction ps generalizing gs with
  | nil =>
    simp only [collectGroups] at h
    injection h with h2
    simp [← h2]
  | cons p ps ih =>
    simp only [collectGroups] at h
    cases hp : parseClause p tp with
    | error e =>
      rw [hp] at h
      exact Except.noConfusion h
    | ok g =>
      rw [hp] at h
      cases hrest : collectGroups tp ps with
      | error e =>
        rw [hrest] at h
        exact Except.noConfusion h
      | ok gs2 =>
        rw [hrest] at h
        dsimp only at h
        injection h with h2
        rw [← h2]
        rw [if_neg (by simpa using parseClause_ok_ne_nil hp)]
        simp

/-- Claim C3 amended: `_parse_page_ranges` fails exactly when the spec string
is empty or whitespace-only, when all comma-separated clauses are empty after
stripping, or when some *non-empty* clause fails to parse (not an
integer-or-integer-dash-integer under Python `int` syntax, a bound outside
`[1, totalPages]`, or start greater than end); empty clauses between commas
are skipped rather than rejected, so for every spec string free of these
defects the parse succeeds. -/
theorem parse_page_ranges_failure_iff (s : String) (tp : Nat) :
    exceptIsError (parsePageRanges s tp) = true ↔
      ((stripChars s.data).isEmpty = true
       ∨ nonEmptyParts s = []
       ∨ ∃ p ∈ nonEmptyParts s, exceptIsError (parseClause p tp) = true) := by
  unfold parsePageRanges
  by_cases hstrip : (stripChars s.data).isEmpty = true
  · rw [if_pos hstrip]
    constructor
    · intro _
      exact Or.inl hstrip
    · intro _
      rfl
  · rw [if_neg hstrip]
    cases hc : collectGroups tp (nonEmptyParts s) with
    | error e =>
      have hex : ∃ p ∈ nonEmptyParts s, exceptIsError (parseClause p tp) = true :=
        (collectGroups_error_iff tp (nonEmptyParts s)).mp (by rw [hc]; rfl)
      constructor
      · intro _
        exact Or.inr (Or.inr hex)
      · intro _
        rfl
    | ok gs =>
      dsimp only
      by_cases hgs : gs.isEmpty = true
      · rw [if_pos hgs]
        have hnil : nonEmptyParts s = [] :=
          (collectGroups_ok_nil_iff hc).mp (List.isEmpty_iff.mp hgs)
        constructor
        · intro _
          exact Or.inr (Or.inl hnil)
        · intro _
          rfl
      · rw [if_neg hgs]
        have h1 : ¬ nonEmptyParts s = [] := by
          intro hnil
          exact hgs (by rw [List.isEmpty_iff]; exact (collectGroups_ok_nil_iff hc).mpr hnil)
        have h2 : ¬ ∃ p ∈ nonEmptyParts s, exceptIsError (parseClause p tp) = true := by
          intro hex
          have hik := (collectGroups_error_iff tp (nonEmptyParts s)).mpr hex
          rw [hc] at hik
          simp [exceptIsError] at hik
        constructor
        · intro hfalse
          simp [exceptIsError] at hfalse
        · rintro (hA | hB | hC)
          · exact absurd hA hstrip
          · exact absurd hB h1
          · exact absurd hC h2

/-- Claim C3 counterexample: at the input `"1,,3"` with `totalPages = 3` the
claim's failure condition holds (the middle clause `""` is not of the form
`N` or `N-M`), yet `_parse_page_ranges` succeeds with `[[0],[2]]` - the
claimed "fails exactly when" equivalence is false at this input. -/
theorem parse_page_ranges_claim_iff_false :
    ¬ (exceptIsError (parsePageRanges "1,,3" 3) = true
        ↔ claimPredictsFailure "1,,3" 3 = true) := by decide

/-- Claim C4 counterexample: `"5,,"` with `totalPages = 5` contains clauses
(the empty strings around the trailing commas) that yield no page indices,
yet `_parse_page_ranges` skips them and succeeds with `[[4]]` instead of
failing. -/
theorem parse_page_ranges_empty_clause_skipped :
    exceptIsError (parsePageRanges "5,," 5) = false ∧
    parsePageRanges "5,," 5 = Except.ok [[4]] := by decide

/-- Claim C4 amended: a comma-separated clause yielding no page indices is
silently skipped, not an error; a parse over a non-whitespace spec string
fails for this reason only when every clause is empty after stripping (for
example `","`), while a spec such as `"1,,3"` succeeds with the empty clause
dropped. -/
theorem parse_page_ranges_all_clauses_empty (s : String) (tp : Nat)
    (hne : (stripChars s.data).isEmpty = false)
    (hall : ((pySplit ',' s.data).map stripChars).all (fun p => p.isEmpty) = true) :
    exceptIsError (parsePageRanges s tp) = true ∧
    parsePageRanges "1,,3" 3 = Except.ok [[0], [2]] := by
  constructor
  · unfold parsePageRanges
    rw [if_neg (by simp [hne])]
    have hparts : nonEmptyParts s = [] := by
      unfold nonEmptyParts
      apply List.filter_eq_nil_iff.mpr
      intro a ha
      have hA := (List.all_eq_true.mp hall) a ha
      simp [hA]
    rw [hparts]
    rfl
  · decide

theorem parse_page_ranges_all_clauses_empty_witness :
    exceptIsError (parsePageRanges "," 7) = true ∧
    parsePageRanges "1,,3" 3 = Except.ok [[0], [2]] :=
  parse_page_ranges_all_clauses_empty "," 7 (by decide) (by decide)

/-! ## Archive layout (claim C7) -/

lemma enumerateFrom_length (i : Nat) (l : List α) :
    (enumerateFrom i l).length = l.length := by
  induction l generalizing i with
  | nil => rfl
  | cons a rest ih => simp [enumerateFrom, ih]

lemma enumerateFrom_getElem? (i : Nat) (l : List α) (j : Nat) (h : j < l.length) :
    (enumerateFrom i l)[j]? = some (i + j, l.get ⟨j, h⟩) := by
  induction l generalizing i j with
  | nil => cases h
  | cons a rest ih =>
    cases j with
    | zero => simp [enumerateFrom]
    | succ k =>
      have h2 : k < rest.length := Nat.lt_of_succ_lt_succ h
      have hcons : enumerateFrom i (a :: rest) = (i, a) :: enumerateFrom (i + 1) rest := rfl
      rw [hcons, List.getElem?_cons_succ]
      rw [ih (i + 1) k h2]
      have harith : i + 1 + k = i + (k + 1) := by omega
      rw [harith]
      rfl

lemma enumerateFrom_mem {i : Nat} {l : List α} {x : Nat × α}
    (h : x ∈ enumerateFrom i l) : x.2 ∈ l := by
  induction l generalizing i with
  | nil => cases h
  | cons a rest ih =>
    rcases List.mem_cons.mp h with rfl | h2
    · exact List.mem_cons_self _ _
    · exact List.mem_cons_of_mem _ (ih h2)

lemma string_data_append (a b : String) : (a ++ b).data = a.data ++ b.data := rfl

lemma natStrL_no_slash (n : Nat) : containsChar '/' (natStrL n) = false :=
  containsChar_eq_false (fun d hd => isDigit_ne_slash (natStrL_all_digits n d hd))

lemma splitPartName_no_slash (i : Nat) (g : List Nat) :
    containsChar '/' (splitPartName i g).data = false := by
  have hdata : (splitPartName i g).data
      = ((((("split_part_".data ++ natStrL (i + 1)) ++ "_pages_".data)
          ++ natStrL (g.headD 0 + 1)) ++ "-".data)
          ++ natStrL (g.getLastD 0 + 1)) ++ ".pdf".data := rfl
  rw [hdata]
  simp only [containsChar_append, Bool.or_eq_false_iff]
  exact ⟨⟨⟨⟨⟨⟨by decide, natStrL_no_slash _⟩, by decide⟩, natStrL_no_slash _⟩,
    by decide⟩, natStrL_no_slash _⟩, by decide⟩

lemma pageName_no_slash (j : Nat) (fmt : String)
    (hfmt : containsChar '/' (pyLower fmt).data = false) :
    containsChar '/' ("page_" ++ natStr (j + 1) ++ "." ++ pyLower fmt).data = false := by
  have hdata : ("page_" ++ natStr (j + 1) ++ "." ++ pyLower fmt).data
      = (("page_".data ++ natStrL (j + 1)) ++ ".".data) ++ (pyLower fmt).data := rfl
  rw [hdata]
  simp only [containsChar_append, Bool.or_eq_false_iff]
  exact ⟨⟨⟨by decide, natStrL_no_slash _⟩, by decide⟩, hfmt⟩

/-- Claim C7: multi-file outputs are packaged as a flat zip archive (no entry
name contains a `/`, so there are no subdirectories); `split_pdf` names its
entries `split_part_<i>_pages_<first>-<last>.pdf` with 1-based part numbers
in input order and `<first>`/`<last>` the 1-based first and last pages of the
group; `pdf_to_image` names its entries `page_<N>.<ext>` with 1-based page
numbers; and the archive filename is the source base name with `_split`
respectively `_images` appended before the `.zip` extension. -/
theorem archive_layout (pc : Nat) (name ranges fmt : String)
    (groups : List (List Nat))
    (hok : parsePageRanges ranges pc = Except.ok groups)
    (hfmt : containsChar '/' (pyLower fmt).data = false) :
    (∃ entries, split_pdf pc name ranges
        = Except.ok (entries, splitextRoot name ++ "_split.zip") ∧
       entries.length = groups.length ∧
       (∀ j (hj : j < groups.length),
          entries[j]? = some ("split_part_" ++ natStr (j + 1) ++ "_pages_"
              ++ natStr ((groups.get ⟨j, hj⟩).headD 0 + 1) ++ "-"
              ++ natStr ((groups.get ⟨j, hj⟩).getLastD 0 + 1) ++ ".pdf",
            groups.get ⟨j, hj⟩)) ∧
       (∀ e ∈ entries, containsChar '/' e.1.data = false)) ∧
    ((pdf_to_image pc name fmt).2 = splitextRoot name ++ "_images.zip" ∧
     (pdf_to_image pc name fmt).1.length = pc ∧
     (∀ j, j < pc →
        (pdf_to_image pc name fmt).1[j]?
          = some ("page_" ++ natStr (j + 1) ++ "." ++ pyLower fmt, j)) ∧
     (∀ e ∈ (pdf_to_image pc name fmt).1, containsChar '/' e.1.data = false)) := by
  constructor
  · refine ⟨(enumerateFrom 0 groups).map (fun ig => (splitPartName ig.1 ig.2, ig.2)),
      ?_, ?_, ?_, ?_⟩
    · unfold split_pdf
      rw [hok]
    · rw [List.length_map, enumerateFrom_length]
    · intro j hj
      rw [List.getElem?_map]
      rw [enumerateFrom_getElem? 0 groups j hj]
      rw [Nat.zero_add]
      rfl
    · intro e he
      obtain ⟨ig, _, rfl⟩ := List.mem_map.mp he
      exact splitPartName_no_slash ig.1 ig.2
  · refine ⟨rfl, ?_, ?_, ?_⟩
    · show ((enumerateFrom 0 (List.range pc)).map _).length = pc
      rw [List.length_map, enumerateFrom_length, List.length_range]
    · intro j hj
      show ((enumerateFrom 0 (List.range pc)).map _)[j]? = _
      rw [List.getElem?_map]
      rw [enumerateFrom_getElem? 0 (List.range pc) j (by rwa [List.length_range])]
      rw [Nat.zero_add]
      have hr : (List.range pc).get ⟨j, by rwa [List.length_range]⟩ = j :=
        List.getElem_range j _
      rw [hr]
      rfl
    · intro e he
      obtain ⟨ip, _, rfl⟩ := List.mem_map.mp he
      exact pageName_no_slash ip.1 fmt hfmt

theorem archive_layout_witness :
    (∃ entries, split_pdf 10 "doc.pdf" "1-3,5,7-9"
        = Except.ok (entries, splitextRoot "doc.pdf" ++ "_split.zip") ∧
       entries.length = ([[0, 1, 2], [4], [6, 7, 8]] : List (List Nat)).length ∧
       (∀ j (hj : j < ([[0, 1, 2], [4], [6, 7, 8]] : List (List Nat)).length),
          entries[j]? = some ("split_part_" ++ natStr (j + 1) ++ "_pages_"
              ++ natStr ((([[0, 1, 2], [4], [6, 7, 8]] : List (List Nat)).get
                  ⟨j, hj⟩).headD 0 + 1) ++ "-"
              ++ natStr ((([[0, 1, 2], [4], [6, 7, 8]] : List (List Nat)).get
                  ⟨j, hj⟩).getLastD 0 + 1) ++ ".pdf",
            ([[0, 1, 2], [4], [6, 7, 8]] : List (List Nat)).get ⟨j, hj⟩)) ∧
       (∀ e ∈ entries, containsChar '/' e.1.data = false)) ∧
    ((pdf_to_image 10 "doc.pdf" "PNG").2 = splitextRoot "doc.pdf" ++ "_images.zip" ∧
     (pdf_to_image 10 "doc.pdf" "PNG").1.length = 10 ∧
     (∀ j, j < 10 →
        (pdf_to_image 10 "doc.pdf" "PNG").1[j]?
          = some ("page_" ++ natStr (j + 1) ++ "." ++ pyLower "PNG", j)) ∧
     (∀ e ∈ (pdf_to_image 10 "doc.pdf" "PNG").1, containsChar '/' e.1.data = false)) :=
  archive_layout 10 "doc.pdf" "1-3,5,7-9" "PNG" [[0, 1, 2], [4], [6, 7, 8]]
    (by decide) (by decide)

end FileConverter
